import Mathlib

/-!
Shallow embedding of the SmartInvest-AI backtesting core
(`src/core/backtesting.py`) and of the valuation-adjustment step of the
allocation engine (`src/core/allocation_engine.py`).

Modelling conventions:
* pandas float values are modelled as exact rationals (`ℚ`); the two
  places where the source computes a transcendental function
  (`** (1/years)` in `calculate_cagr`, `sqrt` in `calculate_sharpe_ratio`)
  are modelled in `ℝ` with `Real.rpow` / `Real.sqrt`.
* a pandas `Series` is modelled as a `List ℚ`; the shared date index of an
  aligned frame is carried separately (`MarketData.dates`, day numbers as
  `ℤ`).  All claims about `simulate_portfolio` quantify over *aligned*
  price data (all series share one date index), on which the source's
  `pd.DataFrame(historical_data).dropna()` alignment step is the identity,
  so `simulate_portfolio` here takes the aligned columns directly.
* a pandas value that would be `NaN` (statistics of too-short series) is
  modelled as `none : Option _`.
* the external `yfinance` download inside the `try:` block of
  `fetch_historical_data` is network input; it is modelled as an oracle
  `Option MarketData`: `some md` is a successful `try:` block producing
  `md`, `none` is the `except Exception:` path (download raised or
  returned no usable data).  The fallback branch is fully embedded.
-/

namespace SmartInvest

/-- The four asset-class keys of the system (`'equity','gold','gilt','debt'`),
in the order `fetch_historical_data` returns them. -/
def assetClasses : List String := ["equity", "gold", "gilt", "debt"]

/-- An aligned market-data frame: the common date index (day numbers) and
the per-asset price columns, as produced by `fetch_historical_data`. -/
structure MarketData where
  dates : List ℤ
  cols : List (String × List ℚ)
deriving DecidableEq, Repr

/-- `np.linspace a b n`: `n` evenly spaced values from `a` to `b` inclusive
(`[a]` for `n = 1`, `[]` for `n = 0`). -/
def linspace (a b : ℚ) (n : ℕ) : List ℚ :=
  if n ≤ 1 then List.replicate n a
  else (List.range n).map (fun i : ℕ => a + (b - a) * (i : ℚ) / ((n : ℚ) - 1))

/-- The synthetic fallback data of `fetch_historical_data`
(src/core/backtesting.py lines 49-56): daily dates over
`[now - years*365 days, now]` (so `365*years + 1` days when `years ≥ 0`,
none when the range is inverted), and per asset a linear interpolation
from 100 to a fixed terminal value (equity 180, gold 140, gilt 140,
debt 134). -/
def fallbackData (years : ℤ) : MarketData :=
  let n := (365 * years + 1).toNat
  { dates := (List.range n).map Int.ofNat
    cols := [("equity", linspace 100 180 n),
             ("gold", linspace 100 140 n),
             ("gilt", linspace 100 140 n),
             ("debt", linspace 100 134 n)] }

/-- `fetch_historical_data(years)` (src/core/backtesting.py lines 12-56).
The `try:` block's outcome (network download plus the gilt/debt synthetic
curves built on the downloaded date index) is the oracle value `some md`;
`none` is the `except` path, which prints and returns the synthetic
fallback data instead of raising. -/
def fetch_historical_data (oracle : Option MarketData) (years : ℤ) : MarketData :=
  match oracle with
  | some md => md
  | none => fallbackData years

/-- Rebasing step of `simulate_portfolio`
(`df[col] = (df[col] / df[col].iloc[0]) * 100`). -/
def rebase (l : List ℚ) : List ℚ := l.map (fun x => x / l.headD 0 * 100)

/-- One iteration of the accumulation loop of `simulate_portfolio`:
`if asset_class in df.columns and pct > 0: portfolio_value += (pct/100) * df[asset_class]`. -/
def portfolioStep (dfn : List (String × List ℚ)) (acc : List ℚ) (ap : String × ℚ) : List ℚ :=
  match dfn.find? (fun c => c.1 == ap.1) with
  | some c => if 0 < ap.2 then acc.zipWith (fun x y => x + ap.2 / 100 * y) c.2 else acc
  | none => acc

/-- `simulate_portfolio(allocation, historical_data, initial_amount)`
(src/core/backtesting.py lines 59-89), on aligned columns (see module
comment: the `DataFrame` + `dropna` alignment is the identity there):
rebase every column to start at 100, accumulate `(pct/100) * column` for
every allocation entry whose key is a column and whose weight is positive,
then scale the series by `initial_amount / 100`. -/
def simulate_portfolio (allocation : List (String × ℚ))
    (cols : List (String × List ℚ)) (initial_amount : ℚ) : List ℚ :=
  (allocation.foldl (portfolioStep (cols.map (fun c => (c.1, rebase c.2))))
    (List.replicate ((cols.headD ("", [])).2.length) 0)).map
    (fun x => x / 100 * initial_amount)

/-- `calculate_cagr(start_value, end_value, years)`
(src/core/backtesting.py lines 92-96). -/
noncomputable def calculate_cagr (start_value end_value years : ℚ) : ℝ :=
  if start_value ≤ 0 ∨ end_value ≤ 0 ∨ years ≤ 0 then 0
  else (((end_value : ℝ) / (start_value : ℝ)) ^ ((1 : ℝ) / (years : ℝ)) - 1) * 100

/-- Running maximum (`Series.cummax`) with accumulator `m`. -/
def cummaxAux (m : ℚ) : List ℚ → List ℚ
  | [] => []
  | x :: xs => max m x :: cummaxAux (max m x) xs

/-- `portfolio_series.cummax()`. -/
def cummax : List ℚ → List ℚ
  | [] => []
  | x :: xs => x :: cummaxAux x xs

/-- `Series.min()`: `none` models the `NaN` a pandas reduction returns on an
empty series. -/
def listMin : List ℚ → Option ℚ
  | [] => none
  | x :: xs => some (xs.foldl min x)

/-- `calculate_max_drawdown(portfolio_series)`
(src/core/backtesting.py lines 99-103): drawdown at each point is
`(value - cummax) / cummax * 100`; the result is the series minimum. -/
def calculate_max_drawdown (l : List ℚ) : Option ℚ :=
  listMin ((l.zip (cummax l)).map (fun p => (p.1 - p.2) / p.2 * 100))

/-- `portfolio_series.pct_change().dropna()`: period-over-period simple
returns; the leading `NaN` is the dropped first entry.  (On a series with a
zero value the source would produce `inf`/`NaN` floats; every theorem below
restricts to positive series, where the model is exact.) -/
def pct_change_dropna (l : List ℚ) : List ℚ :=
  (l.zip l.tail).map (fun p => (p.2 - p.1) / p.1)

/-- The square of pandas `Series.std()` (sample standard deviation,
`ddof=1`): `none` models the `NaN` returned for fewer than two data points;
otherwise the sum of squared deviations from the mean divided by `n - 1`.
The source's guard `std == 0` is equivalent to this variance being `some 0`
(for a defined nonnegative variance, `sqrt v = 0` iff `v = 0`), and a `NaN`
standard deviation compares unequal to `0`. -/
def sampleStdSq (l : List ℚ) : Option ℚ :=
  if l.length < 2 then none
  else some ((l.map (fun x => (x - l.sum / (l.length : ℚ)) ^ 2)).sum / ((l.length : ℚ) - 1))

/-- The excess-returns series of `calculate_sharpe_ratio`:
`returns - risk_free_rate / 252` applied to each period return. -/
def excess_returns (l : List ℚ) (risk_free_rate : ℚ) : List ℚ :=
  ( pct_change_dropna l).map (fun r => r - risk_free_rate / 252)

/-- `calculate_sharpe_ratio(portfolio_series, risk_free_rate=0.06)`
(src/core/backtesting.py lines 106-114).  `none` models a `NaN` result:
when the sample standard deviation of the excess returns is `NaN` (fewer
than two returns) the guard `std == 0` is false and the division produces
`NaN`. -/
noncomputable def calculate_sharpe_ratio (l : List ℚ) (risk_free_rate : ℚ) : Option ℝ :=
  match sampleStdSq (excess_returns l risk_free_rate) with
  | none => none
  | some v =>
    if v = 0 then some 0
    else some ((((excess_returns l risk_free_rate).sum /
        ((excess_returns l risk_free_rate).length : ℚ) : ℚ) : ℝ)
      / Real.sqrt (v : ℝ) * Real.sqrt 252)

/-- `run_backtest`'s result dict (src/core/backtesting.py lines 135-143). -/
structure BacktestResult where
  portfolio_series : List ℚ
  cagr : ℝ
  max_drawdown : Option ℚ
  sharpe_ratio : Option ℝ
  final_value : ℚ
  initial_value : ℚ
  total_return : ℚ

/-- `run_backtest(allocation, years, initial_amount)`
(src/core/backtesting.py lines 117-143), with the external download
abstracted as the oracle passed to `fetch_historical_data`.
`actual_years` is the elapsed day span of the (aligned) date index over
365.  (`total_return` divides by the start value like the source; the
source's float `0/0 = NaN` case is outside every claim proved below.) -/
noncomputable def run_backtest (oracle : Option MarketData)
    (allocation : List (String × ℚ)) (years : ℤ) (initial_amount : ℚ) :
    BacktestResult :=
  let md := fetch_historical_data oracle years
  let portfolio_series := simulate_portfolio allocation md.cols initial_amount
  let start_value := portfolio_series.headD 0
  let end_value := portfolio_series.getLast?.getD 0
  let actual_years : ℚ := ((md.dates.getLast?.getD 0 - md.dates.headD 0 : ℤ) : ℚ) / 365
  { portfolio_series := portfolio_series
    cagr := calculate_cagr start_value end_value actual_years
    max_drawdown := calculate_max_drawdown portfolio_series
    sharpe_ratio := calculate_sharpe_ratio portfolio_series (6 / 100)
    final_value := end_value
    initial_value := start_value
    total_return := (end_value - start_value) / start_value * 100 }

/-- The 100% equity benchmark of `compare_strategies`
(src/core/backtesting.py line 157). -/
def nifty_allocation : List (String × ℚ) :=
  [("equity", 100), ("gold", 0), ("gilt", 0), ("debt", 0)]

/-- The 100% debt benchmark of `compare_strategies`
(src/core/backtesting.py line 161). -/
def fd_allocation : List (String × ℚ) :=
  [("equity", 0), ("gold", 0), ("gilt", 0), ("debt", 100)]

/-- `compare_strategies(recommended_allocation, initial_amount, years)`
(src/core/backtesting.py lines 146-168): three independent backtests keyed
by the three fixed strategy names. -/
noncomputable def compare_strategies (oracle : Option MarketData)
    (recommended_allocation : List (String × ℚ)) (initial_amount : ℚ)
    (years : ℤ) : List (String × BacktestResult) :=
  [("Recommended Portfolio", run_backtest oracle recommended_allocation years initial_amount),
   ("Nifty 50 Only", run_backtest oracle nifty_allocation years initial_amount),
   ("Fixed Deposit Only", run_backtest oracle fd_allocation years initial_amount)]

/-! ## Allocation engine (`src/core/allocation_engine.py`) -/

/-- An allocation dict over the four fixed asset classes. -/
structure Allocation4 where
  equity : ℚ
  gold : ℚ
  gilt : ℚ
  debt : ℚ
deriving DecidableEq, Repr

/-- Python 3 `round(x)` on an exact value: round half to even. -/
def roundHalfEven (x : ℚ) : ℤ :=
  if x - ⌊x⌋ < 1 / 2 then ⌊x⌋
  else if 1 / 2 < x - ⌊x⌋ then ⌊x⌋ + 1
  else if ⌊x⌋ % 2 = 0 then ⌊x⌋ else ⌊x⌋ + 1

/-- Python 3 `round(x, 2)` on an exact value. -/
def round2 (x : ℚ) : ℚ := (roundHalfEven (x * 100) : ℚ) / 100

/-- Total of the four weights (`sum(alloc.values())`). -/
def allocTotal (a : Allocation4) : ℚ := a.equity + a.gold + a.gilt + a.debt

/-- The `if equity_overvalued:` block of `adjust_for_valuation`
(src/core/allocation_engine.py lines 39-44): shift `min(10, equity)` from
equity, half to gilt and half to gold. -/
def equityShiftStep (a : Allocation4) (equity_overvalued : Bool) : Allocation4 :=
  if equity_overvalued then
    { a with
        equity := a.equity - min 10 a.equity
        gilt := a.gilt + min 10 a.equity / 2
        gold := a.gold + min 10 a.equity / 2 }
  else a

/-- The `if gold_overvalued:` block of `adjust_for_valuation`
(src/core/allocation_engine.py lines 46-51): shift `min(5, gold)` from
gold, 60% to equity and 40% to gilt. -/
def goldShiftStep (a : Allocation4) (gold_overvalued : Bool) : Allocation4 :=
  if gold_overvalued then
    { a with
        gold := a.gold - min 5 a.gold
        equity := a.equity + min 5 a.gold * (6 / 10)
        gilt := a.gilt + min 5 a.gold * (4 / 10) }
  else a

/-- The final renormalisation loop of `adjust_for_valuation`
(src/core/allocation_engine.py lines 53-56):
`alloc[k] = round(alloc[k] * 100 / total, 2)` for every key. -/
def normalizeStep (a : Allocation4) : Allocation4 :=
  { equity := round2 (a.equity * 100 / allocTotal a)
    gold := round2 (a.gold * 100 / allocTotal a)
    gilt := round2 (a.gilt * 100 / allocTotal a)
    debt := round2 (a.debt * 100 / allocTotal a) }

/-- `adjust_for_valuation(allocation, equity_overvalued, gold_overvalued)`
(src/core/allocation_engine.py lines 30-58): optional 10-point shift from
equity into gilt/gold, optional 5-point shift from gold into equity/gilt
(60/40), then renormalisation of every weight to `weight * 100 / total`
rounded to two decimals. -/
def adjust_for_valuation (allocation : Allocation4)
    (equity_overvalued gold_overvalued : Bool) : Allocation4 :=
  normalizeStep (goldShiftStep (equityShiftStep allocation equity_overvalued)
    gold_overvalued)

/-! ## Statement-side definitions (from the spec's words) -/

/-- The fixed per-asset terminal value of the synthetic fallback series
(equity 180, gold 140, gilt 140, debt 134). -/
def fallbackTerminal (a : String) : ℚ :=
  if a = "equity" then 180 else if a = "debt" then 134 else 140

/-- Spec-side running maximum of `l` up to index `i` ("running maximum of
the series up to each point"). -/
def runningMaxUpTo (l : List ℚ) (i : ℕ) : ℚ :=
  (l.take (i + 1)).foldl max (l.getD 0 0)

/-- Spec-side max drawdown: the minimum over all indices of
`(value - running_max) / running_max * 100`. -/
def maxDrawdownSpec (l : List ℚ) : Option ℚ :=
  listMin ((List.range l.length).map
    (fun i => (l.getD i 0 - runningMaxUpTo l i) / runningMaxUpTo l i * 100))

/-- Concrete aligned four-asset price data used by witnesses. -/
def colsExample : List (String × List ℚ) :=
  [("equity", [100, 110]), ("gold", [100, 105]),
   ("gilt", [100, 101]), ("debt", [100, 102])]

/-! ## Helper lemmas -/

theorem length_linspace (a b : ℚ) (n : ℕ) : (linspace a b n).length = n := by
  unfold linspace
  split <;> simp

theorem linspace_getD (a b : ℚ) {n : ℕ} (hn : 2 ≤ n) {i : ℕ} (hi : i < n) :
    (linspace a b n).getD i 0 = a + (b - a) * i / ((n : ℚ) - 1) := by
  unfold linspace
  rw [if_neg (by omega)]
  simp [List.getD_eq_getElem?_getD, List.getElem?_range hi]

theorem linspace_headD (a b : ℚ) {n : ℕ} (hn : 2 ≤ n) :
    (linspace a b n).headD 0 = a := by
  have h0 : (0 : ℕ) < n := by omega
  have h := linspace_getD a b hn h0
  rw [List.getD_eq_getElem?_getD] at h
  rcases hl : linspace a b n with _ | ⟨x, xs⟩
  · have := length_linspace a b n
    rw [hl] at this
    simp at this
    omega
  · rw [hl] at h
    simpa using h

theorem linspace_getLast? (a b : ℚ) {n : ℕ} (hn : 2 ≤ n) :
    (linspace a b n).getLast? = some b := by
  have h1 : (1 : ℕ) ≤ n := by omega
  have hne : ((n : ℚ) - 1) ≠ 0 := by
    have h2 : (2 : ℚ) ≤ (n : ℚ) := by exact_mod_cast hn
    linarith
  unfold linspace
  rw [if_neg (by omega)]
  rw [List.getLast?_eq_getElem?]
  simp only [List.length_map, List.length_range]
  rw [List.getElem?_map, List.getElem?_range (by omega)]
  simp only [Option.map_some']
  congr 1
  rw [Nat.cast_sub h1]
  push_cast
  field_simp

theorem fallback_cols_eq (years : ℤ) :
    (fallbackData years).cols = assetClasses.map
      (fun a => (a, linspace 100 (fallbackTerminal a) ((365 * years + 1).toNat))) := rfl

/-- Head contribution of one allocation entry to the accumulated portfolio
series: `pct/100 * first rebased price` when the key is a column and the
weight is positive, `0` otherwise. -/
def headContrib (dfn : List (String × List ℚ)) (ap : String × ℚ) : ℚ :=
  match dfn.find? (fun c => c.1 == ap.1) with
  | some c => if 0 < ap.2 then ap.2 / 100 * c.2.headD 0 else 0
  | none => 0

theorem portfolioStep_of_find?_none {dfn : List (String × List ℚ)}
    {ap : String × ℚ} (h : dfn.find? (fun c => c.1 == ap.1) = none)
    (acc : List ℚ) : portfolioStep dfn acc ap = acc := by
  unfold portfolioStep
  rw [h]

theorem length_portfolioStep {dfn : List (String × List ℚ)} {n : ℕ}
    (hlen : ∀ c ∈ dfn, c.2.length = n) (acc : List ℚ) (hacc : acc.length = n)
    (ap : String × ℚ) : (portfolioStep dfn acc ap).length = n := by
  unfold portfolioStep
  cases hf : dfn.find? (fun c => c.1 == ap.1) with
  | none => exact hacc
  | some c =>
    by_cases hp : 0 < ap.2
    · simp [hp, hacc, hlen c (List.mem_of_find?_eq_some hf)]
    · simp [hp, hacc]

theorem headD_portfolioStep {dfn : List (String × List ℚ)} {n : ℕ}
    (hn : 0 < n) (hlen : ∀ c ∈ dfn, c.2.length = n) (acc : List ℚ)
    (hacc : acc.length = n) (ap : String × ℚ) :
    (portfolioStep dfn acc ap).headD 0 = acc.headD 0 + headContrib dfn ap := by
  unfold portfolioStep headContrib
  cases hf : dfn.find? (fun c => c.1 == ap.1) with
  | none => simp
  | some c =>
    by_cases hp : 0 < ap.2
    · simp only [hp, if_pos]
      have hc : c.2.length = n := hlen c (List.mem_of_find?_eq_some hf)
      rcases acc with _ | ⟨x, xs⟩
      · simp at hacc
        omega
      rcases h2 : c.2 with _ | ⟨y, ys⟩
      · rw [h2] at hc
        simp at hc
        omega
      simp [List.zipWith]
    · simp [hp]

theorem length_foldl_portfolioStep {dfn : List (String × List ℚ)} {n : ℕ}
    (hlen : ∀ c ∈ dfn, c.2.length = n) (al : List (String × ℚ))
    (acc : List ℚ) (hacc : acc.length = n) :
    (al.foldl (portfolioStep dfn) acc).length = n := by
  induction al generalizing acc with
  | nil => exact hacc
  | cons ap al ih => exact ih _ (length_portfolioStep hlen acc hacc ap)

theorem headD_foldl_portfolioStep {dfn : List (String × List ℚ)} {n : ℕ}
    (hn : 0 < n) (hlen : ∀ c ∈ dfn, c.2.length = n) (al : List (String × ℚ))
    (acc : List ℚ) (hacc : acc.length = n) :
    (al.foldl (portfolioStep dfn) acc).headD 0 =
      acc.headD 0 + (al.map (headContrib dfn)).sum := by
  induction al generalizing acc with
  | nil => simp
  | cons ap al ih =>
    rw [List.foldl_cons, ih _ (length_portfolioStep hlen acc hacc ap),
      headD_portfolioStep hn hlen acc hacc ap]
    simp only [List.map_cons, List.sum_cons]
    ring

theorem map_fst_rebase (cols : List (String × List ℚ)) :
    (cols.map (fun c => (c.1, rebase c.2))).map Prod.fst = cols.map Prod.fst := by
  simp [List.map_map]

theorem foldl_portfolioStep_id {dfn : List (String × List ℚ)}
    {al : List (String × ℚ)}
    (h : ∀ ap ∈ al, dfn.find? (fun c => c.1 == ap.1) = none ∨ ¬0 < ap.2)
    (acc : List ℚ) : al.foldl (portfolioStep dfn) acc = acc := by
  induction al generalizing acc with
  | nil => rfl
  | cons ap al ih =>
    have hstep : portfolioStep dfn acc ap = acc := by
      rcases h ap (List.mem_cons_self ap al) with hf | hp
      · exact portfolioStep_of_find?_none hf acc
      · unfold portfolioStep
        cases hf : dfn.find? (fun c => c.1 == ap.1) with
        | none => rfl
        | some c => simp [hp]
    rw [List.foldl_cons, hstep]
    exact ih (fun x hx => h x (List.mem_cons_of_mem ap hx)) acc

/-! ## Claim theorems -/

/-- C3: for every positive `years`, when the external fetch fails
`fetch_historical_data` returns (rather than raising) a mapping for all
four asset classes whose series are linearly interpolated from 100 to the
fixed per-asset terminal value over the `365*years + 1` daily dates of the
full requested horizon. -/
theorem fetch_fallback_interpolates (years : ℤ) (hy : 0 < years) :
    ((fetch_historical_data none years).cols.map Prod.fst = assetClasses) ∧
    ((fetch_historical_data none years).dates =
      (List.range ((365 * years + 1).toNat)).map Int.ofNat) ∧
    (∀ c ∈ (fetch_historical_data none years).cols,
      c.2.length = (365 * years + 1).toNat ∧
      c.2.headD 0 = 100 ∧
      c.2.getLast? = some (fallbackTerminal c.1) ∧
      (∀ i, i < (365 * years + 1).toNat →
        c.2.getD i 0 =
          100 + (fallbackTerminal c.1 - 100) * i / ((((365 * years + 1).toNat : ℕ) : ℚ) - 1))) := by
  have hn : 2 ≤ (365 * years + 1).toNat := by omega
  refine ⟨rfl, rfl, ?_⟩
  intro c hc
  rw [show fetch_historical_data none years = fallbackData years from rfl,
    fallback_cols_eq] at hc
  rcases List.mem_map.mp hc with ⟨a, _, rfl⟩
  exact ⟨length_linspace _ _ _, linspace_headD _ _ hn, linspace_getLast? _ _ hn,
    fun i hi => linspace_getD _ _ hn hi⟩

theorem fetch_fallback_interpolates_witness :
    (0 : ℤ) < 1 ∧
    ((fetch_historical_data none 1).cols.map Prod.fst = assetClasses) ∧
    ((fetch_historical_data none 1).dates =
      (List.range ((365 * (1 : ℤ) + 1).toNat)).map Int.ofNat) :=
  ⟨by norm_num, (fetch_fallback_interpolates 1 (by norm_num)).1,
    (fetch_fallback_interpolates 1 (by norm_num)).2.1⟩

/-- C8 (counterexample): `fetch_historical_data` does not reject
non-positive `years`; on the fallback path it silently returns a
single-point series per asset for `years = 0` and empty series for
`years = -1`. -/
theorem fetch_nonpositive_years_counterexample :
    fetch_historical_data none 0 =
      { dates := [0],
        cols := [("equity", [100]), ("gold", [100]),
                 ("gilt", [100]), ("debt", [100])] } ∧
    fetch_historical_data none (-1) =
      { dates := [],
        cols := [("equity", []), ("gold", []), ("gilt", []), ("debt", [])] } := by
  constructor <;> rfl

/-- C8 (amended): for every `years ≤ 0`, `fetch_historical_data` surfaces
no error: on the fallback path it returns the four asset classes with
degenerate series of at most one point and a date index of at most one
date. -/
theorem fetch_nonpositive_years_degenerate (years : ℤ) (hy : years ≤ 0) :
    ((fetch_historical_data none years).cols.map Prod.fst = assetClasses) ∧
    (∀ c ∈ (fetch_historical_data none years).cols, c.2.length ≤ 1) ∧
    (fetch_historical_data none years).dates.length ≤ 1 := by
  have hn : (365 * years + 1).toNat ≤ 1 := by omega
  refine ⟨rfl, ?_, ?_⟩
  · intro c hc
    rw [show fetch_historical_data none years = fallbackData years from rfl,
      fallback_cols_eq] at hc
    rcases List.mem_map.mp hc with ⟨a, _, rfl⟩
    simpa [length_linspace] using hn
  · simpa [fetch_historical_data, fallbackData] using hn

theorem fetch_nonpositive_years_degenerate_witness :
    (0 : ℤ) ≤ 0 ∧
    ((fetch_historical_data none 0).cols.map Prod.fst = assetClasses) ∧
    (fetch_historical_data none 0).dates.length ≤ 1 :=
  ⟨le_refl 0, (fetch_nonpositive_years_degenerate 0 le_rfl).1,
    (fetch_nonpositive_years_degenerate 0 le_rfl).2.2⟩

/-- C4: `calculate_cagr start end years` equals
`((end/start)^(1/years) - 1) * 100` whenever all three arguments are
positive, and equals the neutral default 0 (without raising) whenever
`start ≤ 0`, `end ≤ 0` or `years ≤ 0`. -/
theorem calculate_cagr_formula_and_guard (s e y : ℚ) :
    (0 < s → 0 < e → 0 < y →
      calculate_cagr s e y =
        (((e : ℝ) / (s : ℝ)) ^ ((1 : ℝ) / (y : ℝ)) - 1) * 100) ∧
    (s ≤ 0 ∨ e ≤ 0 ∨ y ≤ 0 → calculate_cagr s e y = 0) := by
  constructor
  · intro hs he hy
    have h : ¬(s ≤ 0 ∨ e ≤ 0 ∨ y ≤ 0) := by
      push_neg
      exact ⟨hs, he, hy⟩
    rw [calculate_cagr, if_neg h]
  · intro h
    rw [calculate_cagr, if_pos h]

theorem calculate_cagr_formula_and_guard_witness :
    calculate_cagr 0 1 1 = 0 ∧
    calculate_cagr 1 1 1 = (((1 : ℝ) / (1 : ℝ)) ^ ((1 : ℝ) / (1 : ℝ)) - 1) * 100 := by
  constructor
  · exact (calculate_cagr_formula_and_guard 0 1 1).2 (Or.inl le_rfl)
  · have h := (calculate_cagr_formula_and_guard 1 1 1).1 one_pos one_pos one_pos
    simpa using h

/-- C7: for every recommended allocation, initial amount, horizon and data
oracle, `compare_strategies` returns exactly the three fixed strategy keys
"Recommended Portfolio", "Nifty 50 Only", "Fixed Deposit Only", where
"Nifty 50 Only" is the backtest of the 100% equity allocation and
"Fixed Deposit Only" that of the 100% debt allocation. -/
theorem compare_strategies_three_fixed_keys (oracle : Option MarketData)
    (rec : List (String × ℚ)) (M : ℚ) (y : ℤ) :
    ((compare_strategies oracle rec M y).map Prod.fst =
      ["Recommended Portfolio", "Nifty 50 Only", "Fixed Deposit Only"]) ∧
    ((compare_strategies oracle rec M y).lookup "Recommended Portfolio" =
      some (run_backtest oracle rec y M)) ∧
    ((compare_strategies oracle rec M y).lookup "Nifty 50 Only" =
      some (run_backtest oracle nifty_allocation y M)) ∧
    ((compare_strategies oracle rec M y).lookup "Fixed Deposit Only" =
      some (run_backtest oracle fd_allocation y M)) ∧
    nifty_allocation = [("equity", 100), ("gold", 0), ("gilt", 0), ("debt", 0)] ∧
    fd_allocation = [("equity", 0), ("gold", 0), ("gilt", 0), ("debt", 100)] := by
  refine ⟨rfl, rfl, ?_, ?_, rfl, rfl⟩ <;> rfl

/-- C1: for every allocation over the four asset classes with non-negative
weights summing to 100, every aligned price-data mapping with positive
prices (and a non-empty common date index), and every positive initial
amount `M`, the first value of `simulate_portfolio allocation cols M` is
exactly `M` (the model is exact rational arithmetic, so "within
floating-point tolerance" holds with zero error). -/
theorem simulate_portfolio_first_value (allocation : List (String × ℚ))
    (cols : List (String × List ℚ)) (M : ℚ) (n : ℕ) (hn : 0 < n) (hM : 0 < M)
    (hkeys : cols.map Prod.fst = assetClasses)
    (hlen : ∀ c ∈ cols, c.2.length = n)
    (hpos : ∀ c ∈ cols, ∀ x ∈ c.2, 0 < x)
    (halloc : ∀ ap ∈ allocation, ap.1 ∈ assetClasses ∧ 0 ≤ ap.2)
    (hsum : (allocation.map Prod.snd).sum = 100) :
    (simulate_portfolio allocation cols M).headD 0 = M := by
  obtain ⟨c0, cr, rfl⟩ : ∃ c0 cr, cols = c0 :: cr := by
    cases cols with
    | nil => simp [assetClasses] at hkeys
    | cons a b => exact ⟨a, b, rfl⟩
  set dfn := (c0 :: cr).map (fun c => (c.1, rebase c.2)) with hdfn
  have hdlen : ∀ c ∈ dfn, c.2.length = n := by
    intro c hc
    rcases List.mem_map.mp hc with ⟨c1, hc1, rfl⟩
    simpa [rebase] using hlen c1 hc1
  have hheads : ∀ c ∈ dfn, c.2.headD 0 = 100 := by
    intro c hc
    rcases List.mem_map.mp hc with ⟨c1, hc1, rfl⟩
    have hl := hlen c1 hc1
    rcases hcc : c1.2 with _ | ⟨x, xs⟩
    · rw [hcc] at hl
      simp at hl
      omega
    · have hx : 0 < x := hpos c1 hc1 x (by rw [hcc]; exact List.mem_cons_self x xs)
      simp [rebase, hcc, div_self (ne_of_gt hx)]
  have hcontrib : ∀ ap ∈ allocation, headContrib dfn ap = ap.2 := by
    intro ap hap
    obtain ⟨hmem, hge⟩ := halloc ap hap
    have hmem' : ap.1 ∈ dfn.map Prod.fst := by
      rw [hdfn, map_fst_rebase, hkeys]
      exact hmem
    unfold headContrib
    cases hf : dfn.find? (fun c => c.1 == ap.1) with
    | none =>
      rw [List.find?_eq_none] at hf
      rcases List.mem_map.mp hmem' with ⟨c, hc, hfst⟩
      exact absurd (by simp [hfst] : (c.1 == ap.1) = true) (by simpa using hf c hc)
    | some c =>
      have h100 := hheads c (List.mem_of_find?_eq_some hf)
      show (if 0 < ap.2 then ap.2 / 100 * c.2.headD 0 else 0) = ap.2
      rw [h100]
      by_cases hp : 0 < ap.2
      · rw [if_pos hp]
        field_simp
      · rw [if_neg hp]
        linarith [lt_or_eq_of_le hge]
  have hsum' : (allocation.map (headContrib dfn)).sum = 100 := by
    rw [List.map_congr_left hcontrib]
    exact hsum
  show ((allocation.foldl (portfolioStep dfn) (List.replicate (((c0 :: cr).headD ("", [])).2.length) 0)).map
      (fun x => x / 100 * M)).headD 0 = M
  have hn0 : ((c0 :: cr).headD ("", [])).2.length = n := hlen c0 (List.mem_cons_self c0 cr)
  rw [hn0]
  have hflen : (allocation.foldl (portfolioStep dfn) (List.replicate n 0)).length = n :=
    length_foldl_portfolioStep hdlen allocation _ (by simp)
  have hfhead : (allocation.foldl (portfolioStep dfn) (List.replicate n 0)).headD 0 = 100 := by
    rw [headD_foldl_portfolioStep hn hdlen allocation _ (by simp), hsum']
    rcases n with _ | m
    · omega
    · simp [List.replicate_succ]
  rcases hfl : allocation.foldl (portfolioStep dfn) (List.replicate n 0) with _ | ⟨v, vs⟩
  · rw [hfl] at hflen
    simp at hflen
    omega
  · rw [hfl] at hfhead
    simp at hfhead
    simp [hfhead]

theorem simulate_portfolio_first_value_witness :
    (simulate_portfolio [("equity", 50), ("gold", 20), ("gilt", 20), ("debt", 10)]
      colsExample 1000).headD 0 = 1000 :=
  simulate_portfolio_first_value _ colsExample 1000 2 (by norm_num) (by norm_num)
    (by decide) (by decide) (by decide) (by decide)
    (by norm_num [List.sum_cons, List.sum_nil])

/-- C2 (counterexample): an allocation whose only key is the unrecognized
asset class "crypto" is not rejected by `simulate_portfolio`: no
`InvalidAllocation` error is surfaced, the key is silently skipped and the
all-zero series is returned, exactly as for the empty allocation. -/
theorem simulate_portfolio_unknown_key_counterexample :
    simulate_portfolio [("crypto", 100)] colsExample 1000 = [0, 0] ∧
    simulate_portfolio [("crypto", 100)] colsExample 1000 =
      simulate_portfolio [] colsExample 1000 := by
  have h1 : simulate_portfolio [("crypto", 100)] colsExample 1000 =
      (List.replicate 2 (0 : ℚ)).map (fun x => x / 100 * 1000) := rfl
  have h2 : simulate_portfolio [] colsExample 1000 =
      (List.replicate 2 (0 : ℚ)).map (fun x => x / 100 * 1000) := rfl
  refine ⟨?_, h1.trans h2.symm⟩
  rw [h1]
  norm_num [List.replicate_succ]

/-- C2 (amended): an allocation entry whose asset-class key is not one of
the price-data columns is silently skipped by `simulate_portfolio`
(contributing zero): removing it leaves the result unchanged, and no
rejected-input error is surfaced. -/
theorem simulate_portfolio_skips_unknown_key (l1 l2 : List (String × ℚ))
    (a : String) (p : ℚ) (cols : List (String × List ℚ)) (M : ℚ)
    (ha : a ∉ cols.map Prod.fst) :
    simulate_portfolio (l1 ++ (a, p) :: l2) cols M =
      simulate_portfolio (l1 ++ l2) cols M := by
  unfold simulate_portfolio
  have hnone : (cols.map (fun c => (c.1, rebase c.2))).find?
      (fun c => c.1 == (a, p).1) = none := by
    rw [List.find?_eq_none]
    intro x hx
    rcases List.mem_map.mp hx with ⟨c1, hc1, rfl⟩
    simp only [beq_iff_eq, Bool.not_eq_true, decide_eq_false_iff_not]
    intro heq
    exact ha (heq ▸ List.mem_map_of_mem Prod.fst hc1)
  rw [List.foldl_append, List.foldl_append, List.foldl_cons,
    portfolioStep_of_find?_none hnone]

theorem simulate_portfolio_skips_unknown_key_witness :
    simulate_portfolio ([("equity", 50)] ++ ("crypto", 50) :: [("debt", 50)])
      colsExample 1000 =
    simulate_portfolio ([("equity", 50)] ++ [("debt", 50)]) colsExample 1000 :=
  simulate_portfolio_skips_unknown_key [("equity", 50)] [("debt", 50)]
    "crypto" 50 colsExample 1000 (by decide)

/-- C10: for every aligned price-data mapping and every allocation whose
recognized weights are all zero (including the empty allocation),
`simulate_portfolio` raises nothing and returns the all-zero series: its
first value is 0, not the initial amount (when that is positive), and the
downstream CAGR computed by `run_backtest` from that start value is the
guarded default 0. -/
theorem simulate_portfolio_zero_weights (allocation : List (String × ℚ))
    (cols : List (String × List ℚ)) (M : ℚ)
    (h : ∀ ap ∈ allocation, ap.1 ∈ cols.map Prod.fst → ap.2 = 0) :
    simulate_portfolio allocation cols M =
      List.replicate ((cols.headD ("", [])).2.length) 0 ∧
    (simulate_portfolio allocation cols M).headD 0 = 0 ∧
    (0 < M → (simulate_portfolio allocation cols M).headD 0 ≠ M) ∧
    (∀ e y : ℚ, calculate_cagr ((simulate_portfolio allocation cols M).headD 0) e y = 0) := by
  have hid : ∀ ap ∈ allocation,
      (cols.map (fun c => (c.1, rebase c.2))).find? (fun c => c.1 == ap.1) = none ∨
        ¬0 < ap.2 := by
    intro ap hap
    by_cases hmem : ap.1 ∈ cols.map Prod.fst
    · right
      rw [h ap hap hmem]
      exact lt_irrefl 0
    · left
      rw [List.find?_eq_none]
      intro x hx
      rcases List.mem_map.mp hx with ⟨c1, hc1, rfl⟩
      simp only [beq_iff_eq, Bool.not_eq_true, decide_eq_false_iff_not]
      intro heq
      exact hmem (heq ▸ List.mem_map_of_mem Prod.fst hc1)
  have hmain : simulate_portfolio allocation cols M =
      List.replicate ((cols.headD ("", [])).2.length) 0 := by
    show ((allocation.foldl (portfolioStep (cols.map (fun c => (c.1, rebase c.2))))
        (List.replicate ((cols.headD ("", [])).2.length) 0)).map
        (fun x => x / 100 * M)) = _
    rw [foldl_portfolioStep_id hid]
    simp
  have hhead : (simulate_portfolio allocation cols M).headD 0 = 0 := by
    rw [hmain]
    cases ((cols.headD ("", [])).2.length) <;> simp [List.replicate_succ]
  refine ⟨hmain, hhead, ?_, ?_⟩
  · intro hM
    rw [hhead]
    exact ne_of_lt hM
  · intro e y
    rw [hhead, calculate_cagr, if_pos (Or.inl le_rfl)]

theorem simulate_portfolio_zero_weights_witness :
    simulate_portfolio [("equity", 0), ("crypto", 5)] colsExample 500 =
      List.replicate 2 0 ∧
    (simulate_portfolio [("equity", 0), ("crypto", 5)] colsExample 500).headD 0 = 0 := by
  have h := simulate_portfolio_zero_weights [("equity", 0), ("crypto", 5)]
    colsExample 500 (by decide)
  exact ⟨h.1, h.2.1⟩

/-- C5 (counterexample): for the single-data-point series `[100]` and the
two-point constant series `[100, 100]` the excess returns have no defined
sample standard deviation (pandas `ddof=1` yields `NaN`, modelled `none`),
the `std == 0` guard is therefore false, and `calculate_sharpe_ratio`
returns `NaN` (`none`), not 0, contradicting the claim for those series. -/
theorem sharpe_single_point_counterexample :
    calculate_sharpe_ratio [100] (6 / 100) = none ∧
    calculate_sharpe_ratio [100, 100] (6 / 100) = none ∧
    (none : Option ℝ) ≠ some 0 := by
  refine ⟨rfl, rfl, by simp⟩

/-- C5 (amended): for every portfolio-value series whose excess returns
have a *defined* sample standard deviation equal to 0 — which requires at
least two excess returns, i.e. at least three data points; every constant
series of that length qualifies — `calculate_sharpe_ratio` returns 0
rather than dividing by zero.  Single- and two-point series instead give
an undefined (`NaN`) standard deviation and a `NaN` result. -/
theorem sharpe_zero_std_returns_zero (l : List ℚ) (rf : ℚ)
    (h : sampleStdSq (excess_returns l rf) = some 0) :
    calculate_sharpe_ratio l rf = some 0 := by
  unfold calculate_sharpe_ratio
  rw [h]
  simp

theorem sharpe_zero_std_returns_zero_witness :
    calculate_sharpe_ratio [100, 100, 100] (6 / 100) = some 0 :=
  sharpe_zero_std_returns_zero [100, 100, 100] (6 / 100)
    (by norm_num [excess_returns, pct_change_dropna, sampleStdSq,
      List.sum_cons, List.sum_nil])

theorem length_cummaxAux (m : ℚ) (xs : List ℚ) :
    (cummaxAux m xs).length = xs.length := by
  induction xs generalizing m with
  | nil => rfl
  | cons y ys ih => simp [cummaxAux, ih]

theorem length_cummax (l : List ℚ) : (cummax l).length = l.length := by
  cases l with
  | nil => rfl
  | cons x xs => simp [cummax, length_cummaxAux]

theorem getElem_cummaxAux (xs : List ℚ) (m : ℚ) (i : ℕ)
    (h : i < (cummaxAux m xs).length) :
    (cummaxAux m xs)[i] = (xs.take (i + 1)).foldl max m := by
  induction xs generalizing m i with
  | nil => simp [cummaxAux] at h
  | cons y ys ih =>
    cases i with
    | zero => simp [cummaxAux]
    | succ j =>
      have hj : j < (cummaxAux (max m y) ys).length := by
        simpa [cummaxAux, length_cummaxAux] using h
      simp only [cummaxAux, List.getElem_cons_succ, List.take_succ_cons,
        List.foldl_cons]
      exact ih (max m y) j hj

theorem getElem_cummax (l : List ℚ) (i : ℕ) (h : i < (cummax l).length) :
    (cummax l)[i] = runningMaxUpTo l i := by
  cases l with
  | nil => simp [cummax] at h
  | cons x xs =>
    unfold runningMaxUpTo
    cases i with
    | zero => simp [cummax]
    | succ j =>
      have hj : j < (cummaxAux x xs).length := by
        simpa [cummax, length_cummaxAux] using h
      simp only [cummax, List.getElem_cons_succ, List.take_succ_cons,
        List.foldl_cons, List.getD_cons_zero]
      rw [getElem_cummaxAux xs x j hj, max_self]

theorem drawdown_map_eq (l : List ℚ) :
    (l.zip (cummax l)).map (fun p => (p.1 - p.2) / p.2 * 100) =
      (List.range l.length).map
        (fun i => (l.getD i 0 - runningMaxUpTo l i) / runningMaxUpTo l i * 100) := by
  apply List.ext_getElem
  · simp [length_cummax]
  · intro i h1 h2
    have hi : i < l.length := by
      simpa [length_cummax] using h1
    have hci : i < (cummax l).length := by
      simpa [length_cummax] using hi
    simp only [List.getElem_map, List.getElem_range]
    rw [List.getElem_zip, getElem_cummax l i hci,
      List.getD_eq_getElem?_getD, List.getElem?_eq_getElem hi, Option.getD_some]

theorem cummaxAux_eq_self (xs : List ℚ) (m : ℚ)
    (h : List.Chain' (· ≤ ·) (m :: xs)) : cummaxAux m xs = xs := by
  induction xs generalizing m with
  | nil => rfl
  | cons y ys ih =>
    rw [List.chain'_cons] at h
    unfold cummaxAux
    rw [max_eq_right h.1, ih y h.2]

theorem cummax_eq_self (l : List ℚ) (h : List.Chain' (· ≤ ·) l) :
    cummax l = l := by
  cases l with
  | nil => rfl
  | cons x xs => rw [cummax, cummaxAux_eq_self xs x h]

theorem foldl_min_zero (xs : List ℚ) :
    List.foldl min (0 : ℚ) (xs.map (fun _ => (0 : ℚ))) = 0 := by
  induction xs with
  | nil => rfl
  | cons y ys ih => simpa using ih

/-- C6: for every non-empty positive portfolio-value series,
`calculate_max_drawdown` equals the minimum over the series of
`(value - running_max) / running_max * 100` (with `running_max` the
running maximum up to each point), and on a monotonically non-decreasing
series it returns 0. -/
theorem max_drawdown_formula_and_monotone (l : List ℚ) (hne : l ≠ [])
    (hpos : ∀ x ∈ l, 0 < x) :
    calculate_max_drawdown l = maxDrawdownSpec l ∧
    (List.Chain' (· ≤ ·) l → calculate_max_drawdown l = some 0) := by
  constructor
  · unfold calculate_max_drawdown maxDrawdownSpec
    rw [drawdown_map_eq]
  · intro hchain
    unfold calculate_max_drawdown
    rw [cummax_eq_self l hchain, List.zip_eq_zipWith, List.zipWith_same]
    have hzero : (l.map (fun a : ℚ => (a, a))).map
        (fun p : ℚ × ℚ => (p.1 - p.2) / p.2 * 100) = l.map (fun _ => (0 : ℚ)) := by
      rw [List.map_map]
      exact List.map_congr_left (fun x _ => by simp [Function.comp])
    rw [hzero]
    cases l with
    | nil => exact absurd rfl hne
    | cons x xs =>
      simp only [List.map_cons, listMin]
      rw [foldl_min_zero]

theorem max_drawdown_formula_and_monotone_witness :
    calculate_max_drawdown [100, 110, 120] = some 0 ∧
    calculate_max_drawdown [100, 110, 120] = maxDrawdownSpec [100, 110, 120] := by
  have h := max_drawdown_formula_and_monotone [100, 110, 120] (by simp)
    (by norm_num)
  exact ⟨h.2 (by norm_num [List.chain'_cons]), h.1⟩

theorem roundHalfEven_bound (x : ℚ) : |(roundHalfEven x : ℚ) - x| ≤ 1 / 2 := by
  have h1 : (⌊x⌋ : ℚ) ≤ x := Int.floor_le x
  have h2 : x < (⌊x⌋ : ℚ) + 1 := Int.lt_floor_add_one x
  unfold roundHalfEven
  split_ifs with ha hb hc
  · rw [abs_sub_comm, abs_of_nonneg (by linarith)]
    linarith
  · push_cast
    rw [abs_of_nonneg (by linarith)]
    linarith
  · rw [abs_sub_comm, abs_of_nonneg (by linarith)]
    linarith
  · push_cast
    rw [abs_of_nonneg (by linarith)]
    linarith

theorem round2_bound (x : ℚ) : |round2 x - x| ≤ 1 / 200 := by
  have h := roundHalfEven_bound (x * 100)
  have heq : round2 x - x = ((roundHalfEven (x * 100) : ℚ) - x * 100) / 100 := by
    unfold round2
    ring
  rw [heq, abs_div, abs_of_pos (by norm_num : (0 : ℚ) < 100)]
  linarith

theorem allocTotal_equityShiftStep (a : Allocation4) (eo : Bool) :
    allocTotal (equityShiftStep a eo) = allocTotal a := by
  unfold equityShiftStep
  split_ifs
  · unfold allocTotal
    ring
  · rfl

theorem allocTotal_goldShiftStep (a : Allocation4) (go : Bool) :
    allocTotal (goldShiftStep a go) = allocTotal a := by
  unfold goldShiftStep
  split_ifs
  · unfold allocTotal
    ring
  · rfl

theorem normalizeStep_sum (a : Allocation4) (hT : allocTotal a ≠ 0) :
    |allocTotal (normalizeStep a) - 100| ≤ 1 / 50 := by
  have hx : a.equity * 100 / allocTotal a + a.gold * 100 / allocTotal a +
      a.gilt * 100 / allocTotal a + a.debt * 100 / allocTotal a = 100 := by
    rw [div_add_div_same, div_add_div_same, div_add_div_same]
    rw [show a.equity * 100 + a.gold * 100 + a.gilt * 100 + a.debt * 100 =
      allocTotal a * 100 from by unfold allocTotal; ring]
    exact mul_div_cancel_left₀ 100 hT
  have h1 := round2_bound (a.equity * 100 / allocTotal a)
  have h2 := round2_bound (a.gold * 100 / allocTotal a)
  have h3 := round2_bound (a.gilt * 100 / allocTotal a)
  have h4 := round2_bound (a.debt * 100 / allocTotal a)
  have hsum : allocTotal (normalizeStep a) - 100 =
      (round2 (a.equity * 100 / allocTotal a) - a.equity * 100 / allocTotal a) +
      (round2 (a.gold * 100 / allocTotal a) - a.gold * 100 / allocTotal a) +
      (round2 (a.gilt * 100 / allocTotal a) - a.gilt * 100 / allocTotal a) +
      (round2 (a.debt * 100 / allocTotal a) - a.debt * 100 / allocTotal a) := by
    have expand : allocTotal (normalizeStep a) =
        round2 (a.equity * 100 / allocTotal a) + round2 (a.gold * 100 / allocTotal a) +
        round2 (a.gilt * 100 / allocTotal a) + round2 (a.debt * 100 / allocTotal a) := rfl
    rw [expand]
    linarith [hx]
  rw [abs_le] at h1 h2 h3 h4
  rw [hsum]
  exact abs_le.mpr ⟨by linarith, by linarith⟩

/-- C9: for every input allocation over the four asset classes with
non-negative weights of positive total, the allocation produced by
`adjust_for_valuation` (for any combination of the two overvaluation
flags) has values summing to 100 within rounding tolerance: each of the
four weights is rounded to two decimals, so the total differs from 100 by
at most 4 × 0.005 = 0.02. -/
theorem adjust_for_valuation_sum_near_100 (a : Allocation4) (eo go : Bool)
    (he : 0 ≤ a.equity) (hgo : 0 ≤ a.gold) (hgi : 0 ≤ a.gilt) (hd : 0 ≤ a.debt)
    (hT : 0 < allocTotal a) :
    |allocTotal (adjust_for_valuation a eo go) - 100| ≤ 1 / 50 := by
  have hT2 : allocTotal (goldShiftStep (equityShiftStep a eo) go) = allocTotal a := by
    rw [allocTotal_goldShiftStep, allocTotal_equityShiftStep]
  unfold adjust_for_valuation
  exact normalizeStep_sum _ (by rw [hT2]; exact ne_of_gt hT)

theorem adjust_for_valuation_sum_near_100_witness :
    0 < allocTotal ⟨50, 20, 20, 10⟩ ∧
    |allocTotal (adjust_for_valuation ⟨50, 20, 20, 10⟩ true false) - 100| ≤ 1 / 50 :=
  ⟨by norm_num [allocTotal],
    adjust_for_valuation_sum_near_100 ⟨50, 20, 20, 10⟩ true false
      (by norm_num) (by norm_num) (by norm_num) (by norm_num)
      (by norm_num [allocTotal])⟩

end SmartInvest
